import Mathlib

/-!
Shallow embedding of `django-dynamic-model` (`src/dynamicmodel/models.py`).

The per-instance attribute blob `extra_fields` is a Python dict from field
names to JSON values; we model it as an insertion-ordered association list
whose operations (`dictInsert`, `dictDelete`, `lookupStore`) mirror Python
dict assignment, deletion and lookup.  Schema rows (`DynamicSchemaField`)
are modelled as records, the database table of such rows as a list, and the
Django ORM calls used by the source (`objects.get(pk=...)`, `create`,
`filter(...).delete()`) as list operations on it.
-/

namespace DynMod

/-- JSON-representable values held by the `extra_fields` blob.  `null` is
Python `None`. -/
inductive Value where
  | null : Value
  | int : Int → Value
  | str : String → Value
  | bool : Bool → Value
deriving DecidableEq, Repr

/-- The attribute store: a Python dict modelled as an insertion-ordered
association list. -/
abbrev Store := List (String × Value)

/-- Iteration over the dict keys (`for field_name in self.extra_fields`). -/
def storeKeys (s : Store) : List String := s.map Prod.fst

/-- Python `k in d` for a dict `d`. -/
def hasKey (s : Store) (k : String) : Bool :=
  s.any (fun p => decide (p.1 = k))

/-- Python `d[k] = v`: overwrite in place when the key exists, else append
at the end (insertion order). -/
def dictInsert (s : Store) (k : String) (v : Value) : Store :=
  if hasKey s k then s.map (fun p => if p.1 = k then (p.1, v) else p)
  else s ++ [(k, v)]

/-- Python `del d[k]`. -/
def dictDelete (s : Store) (k : String) : Store :=
  s.filter (fun p => decide (p.1 ≠ k))

/-- Python `d[k]` (as an `Option`, `none` when the key is absent). -/
def lookupStore (s : Store) (k : String) : Option Value :=
  (s.find? (fun p => decide (p.1 = k))).map Prod.snd

/-- `DynamicModel.get_extra_field_value` (models.py:36-40): the stored value
when the key is present, else `None`. -/
def getExtraFieldValue (s : Store) (k : String) : Value :=
  match lookupStore s k with
  | some v => v
  | none => Value.null

/-- `DynamicModel._sync_with_schema` (models.py:24-34).  `schemaNames` is
`get_extra_fields_names()`, the names of the resolved schema's fields in
declaration order.  Keys not declared on the schema are deleted; declared
names missing from the store are inserted with value `None`. -/
def syncWithSchema (store : Store) (schemaNames : List String) : Store :=
  let clearField := (storeKeys store).filter (fun k => decide (k ∉ schemaNames))
  let newField := schemaNames.filter (fun n => ! hasKey store n)
  let cleared := clearField.foldl dictDelete store
  newField.foldl (fun d n => dictInsert d n Value.null) cleared

/-! ### Basic dict lemmas -/

theorem hasKey_iff_mem_storeKeys (s : Store) (k : String) :
    hasKey s k = true ↔ k ∈ storeKeys s := by
  simp [hasKey, storeKeys]

theorem find?_key_eq_none_of_not_hasKey (s : Store) (k : String)
    (h : hasKey s k = false) :
    s.find? (fun p => decide (p.1 = k)) = none := by
  rw [List.find?_eq_none]
  intro p hp
  simp only [hasKey, List.any_eq_false] at h
  simpa using h p hp

theorem lookupStore_eq_none_of_not_hasKey (s : Store) (k : String)
    (h : hasKey s k = false) : lookupStore s k = none := by
  rw [lookupStore, find?_key_eq_none_of_not_hasKey s k h]
  rfl

theorem foldl_dictDelete_eq_filter (L : List String) (s : Store) :
    L.foldl dictDelete s = s.filter (fun p => decide (p.1 ∉ L)) := by
  induction L generalizing s with
  | nil => simp
  | cons k L ih =>
      rw [List.foldl_cons, ih, dictDelete, List.filter_filter]
      apply List.filter_congr
      intro p _
      by_cases h1 : p.1 = k <;> by_cases h2 : p.1 ∈ L <;>
        simp [h1, h2]

theorem mem_storeKeys_dictInsert (s : Store) (k m : String) (v : Value) :
    m ∈ storeKeys (dictInsert s k v) ↔ m ∈ storeKeys s ∨ m = k := by
  unfold dictInsert
  by_cases h : hasKey s k
  · have hk : k ∈ storeKeys s := (hasKey_iff_mem_storeKeys s k).mp h
    simp only [h, if_true]
    have hkeys : storeKeys (s.map (fun p => if p.1 = k then (p.1, v) else p))
        = storeKeys s := by
      simp only [storeKeys, List.map_map]
      apply List.map_congr_left
      intro p _
      by_cases hp : p.1 = k <;> simp [hp]
    rw [hkeys]
    constructor
    · exact Or.inl
    · rintro (hm | rfl)
      · exact hm
      · exact hk
  · simp only [h, if_false]
    simp [storeKeys]

theorem lookupStore_mapUpdate (s : Store) (k m : String) (v : Value) :
    lookupStore (s.map (fun p => if p.1 = k then (p.1, v) else p)) m =
      if m = k then (if hasKey s k then some v else none)
      else lookupStore s m := by
  have hcomp : ((fun p : String × Value => decide (p.1 = m)) ∘
      (fun p => if p.1 = k then (p.1, v) else p)) =
      (fun p : String × Value => decide (p.1 = m)) := by
    funext p
    by_cases hp : p.1 = k <;> simp [hp]
  rw [lookupStore, List.find?_map, hcomp]
  by_cases hmk : m = k
  · subst hmk
    by_cases h : hasKey s m
    · obtain ⟨q, hq, hqm⟩ : ∃ q ∈ s, decide (q.1 = m) = true := by
        simpa [hasKey, List.any_eq_true] using h
      obtain ⟨r, hr⟩ : ∃ r, s.find? (fun p => decide (p.1 = m)) = some r := by
        have : (s.find? (fun p => decide (p.1 = m))).isSome := by
          rw [List.find?_isSome]
          exact ⟨q, hq, hqm⟩
        exact Option.isSome_iff_exists.mp this
      have hrm : r.1 = m := by simpa using List.find?_some hr
      rw [hr]
      simp [h, hrm]
    · rw [find?_key_eq_none_of_not_hasKey s m (by simpa using h)]
      simp [h]
  · cases hfind : s.find? (fun p => decide (p.1 = m)) with
    | none => simp [lookupStore, hfind, hmk]
    | some r =>
        have hrm : r.1 = m := by simpa using List.find?_some hfind
        have hr : (if r.1 = k then (r.1, v) else r) = r := by
          rw [hrm]
          simp [hmk]
        simp [lookupStore, hfind, hmk, hr]

theorem lookupStore_append_single (s : Store) (k m : String) (v : Value) :
    lookupStore (s ++ [(k, v)]) m =
      match lookupStore s m with
      | some w => some w
      | none => if m = k then some v else none := by
  rw [lookupStore, List.find?_append]
  cases hfind : s.find? (fun p => decide (p.1 = m)) with
  | none =>
      by_cases hmk : m = k
      · subst hmk
        simp [lookupStore, hfind]
      · have hkm : ¬ k = m := fun h => hmk h.symm
        simp [lookupStore, hfind, hmk, hkm]
  | some r => simp [lookupStore, hfind]

theorem lookupStore_dictInsert (s : Store) (k m : String) (v : Value) :
    lookupStore (dictInsert s k v) m =
      if m = k then some v else lookupStore s m := by
  rw [dictInsert]
  by_cases h : hasKey s k
  · rw [if_pos h, lookupStore_mapUpdate]
    by_cases hmk : m = k <;> simp [hmk, h]
  · rw [if_neg h, lookupStore_append_single]
    by_cases hmk : m = k
    · subst hmk
      rw [lookupStore_eq_none_of_not_hasKey s m (by simpa using h)]
    · cases hl : lookupStore s m <;> simp [hmk, hl]

/-! ### Sync lemmas -/

theorem syncWithSchema_def (store : Store) (schemaNames : List String) :
    syncWithSchema store schemaNames =
      (schemaNames.filter (fun n => ! hasKey store n)).foldl
        (fun d n => dictInsert d n Value.null)
        (((storeKeys store).filter (fun k => decide (k ∉ schemaNames))).foldl
          dictDelete store) := rfl

theorem cleared_eq_filter (store : Store) (schemaNames : List String) :
    ((storeKeys store).filter (fun k => decide (k ∉ schemaNames))).foldl
        dictDelete store
      = store.filter (fun p => decide (p.1 ∈ schemaNames)) := by
  rw [foldl_dictDelete_eq_filter]
  apply List.filter_congr
  intro p hp
  have hpk : p.1 ∈ storeKeys store := by
    unfold storeKeys
    exact List.mem_map_of_mem Prod.fst hp
  by_cases hmem : p.1 ∈ schemaNames
  · have hnm : p.1 ∉ (storeKeys store).filter (fun k => decide (k ∉ schemaNames)) := by
      simp [List.mem_filter, hmem]
    simp [hnm, hmem]
  · have hm : p.1 ∈ (storeKeys store).filter (fun k => decide (k ∉ schemaNames)) := by
      simp [List.mem_filter, hpk, hmem]
    simp [hm, hmem, hpk]

theorem mem_storeKeys_filter (store : Store) (q : String × Value → Bool) (k : String) :
    k ∈ storeKeys (store.filter q) ↔ ∃ p ∈ store, p.1 = k ∧ q p = true := by
  simp only [storeKeys, List.mem_map, List.mem_filter]
  constructor
  · rintro ⟨p, ⟨hp, hq⟩, rfl⟩
    exact ⟨p, hp, rfl, hq⟩
  · rintro ⟨p, hp, rfl, hq⟩
    exact ⟨p, ⟨hp, hq⟩, rfl⟩

theorem mem_storeKeys_foldl_insert (L : List String) (d : Store) (m : String) :
    m ∈ storeKeys (L.foldl (fun d n => dictInsert d n Value.null) d) ↔
      m ∈ storeKeys d ∨ m ∈ L := by
  induction L generalizing d with
  | nil => simp
  | cons n L ih =>
      rw [List.foldl_cons, ih, mem_storeKeys_dictInsert]
      simp only [List.mem_cons]
      tauto

theorem mem_storeKeys_syncWithSchema (store : Store) (schemaNames : List String)
    (k : String) :
    k ∈ storeKeys (syncWithSchema store schemaNames) ↔ k ∈ schemaNames := by
  rw [syncWithSchema_def, cleared_eq_filter, mem_storeKeys_foldl_insert,
    mem_storeKeys_filter]
  constructor
  · rintro (⟨p, _, rfl, hq⟩ | hmem)
    · simpa using hq
    · exact (List.mem_filter.mp hmem).1
  · intro hk
    by_cases hs : hasKey store k
    · left
      obtain ⟨p, hp, hpk⟩ : ∃ p ∈ store, decide (p.1 = k) = true := by
        simpa [hasKey, List.any_eq_true] using hs
      have hpk' : p.1 = k := by simpa using hpk
      exact ⟨p, hp, hpk', by simpa [hpk'] using hk⟩
    · right
      rw [List.mem_filter]
      refine ⟨hk, ?_⟩
      simp [hs]

theorem lookupStore_filter_key (s : Store) (q : String × Value → Bool) (k : String)
    (hq : ∀ p, p.1 = k → q p = true) :
    lookupStore (s.filter q) k = lookupStore s k := by
  induction s with
  | nil => rfl
  | cons p s ih =>
      rw [List.filter_cons]
      by_cases hpk : p.1 = k
      · rw [if_pos (hq p hpk)]
        have hfp : ∀ t : Store,
            List.find? (fun r => decide (r.1 = k)) (p :: t) = some p :=
          fun t => List.find?_cons_of_pos t (by simp [hpk])
        simp only [lookupStore, hfp]
      · have hfind : ∀ t : Store,
            List.find? (fun r => decide (r.1 = k)) (p :: t)
              = List.find? (fun r => decide (r.1 = k)) t :=
          fun t => List.find?_cons_of_neg t (by simp [hpk])
        by_cases hqp : q p = true
        · rw [if_pos hqp]
          simp only [lookupStore, hfind] at ih ⊢
          exact ih
        · rw [if_neg hqp]
          simp only [lookupStore, hfind] at ih ⊢
          exact ih

theorem lookupStore_foldl_insert_of_not_mem (L : List String) (d : Store)
    (k : String) (h : k ∉ L) :
    lookupStore (L.foldl (fun d n => dictInsert d n Value.null) d) k =
      lookupStore d k := by
  induction L generalizing d with
  | nil => rfl
  | cons n L ih =>
      rw [List.foldl_cons, ih _ (fun hk => h (List.mem_cons_of_mem n hk)),
        lookupStore_dictInsert]
      have hkn : ¬ k = n := fun he => h (he ▸ List.mem_cons_self n L)
      rw [if_neg hkn]

/-! ### Claims C1, C2, C3 -/

/-- C1.  Sync completeness: after `_sync_with_schema`, the key set of the
attribute store equals exactly the set of field names declared on the
schema — every schema field name is a key and no other key remains — and
for the empty schema the post-sync store is the empty store. -/
theorem sync_completeness (store : Store) (schemaNames : List String) :
    (∀ k, k ∈ storeKeys (syncWithSchema store schemaNames) ↔ k ∈ schemaNames) ∧
    syncWithSchema store [] = [] := by
  constructor
  · exact mem_storeKeys_syncWithSchema store schemaNames
  · have hkeys : storeKeys (syncWithSchema store []) = [] := by
      rw [List.eq_nil_iff_forall_not_mem]
      intro k hk
      simpa using (mem_storeKeys_syncWithSchema store [] k).mp hk
    rw [storeKeys] at hkeys
    exact List.map_eq_nil_iff.mp hkeys

/-- C2.  Sync idempotence: running `_sync_with_schema` a second time with
the same schema returns the store unchanged (as a list, hence also as a
mapping): `sync (sync A S) S = sync A S`. -/
theorem sync_idempotent (store : Store) (schemaNames : List String) :
    syncWithSchema (syncWithSchema store schemaNames) schemaNames =
      syncWithSchema store schemaNames := by
  have hkeys := mem_storeKeys_syncWithSchema store schemaNames
  have hclear : (storeKeys (syncWithSchema store schemaNames)).filter
      (fun k => decide (k ∉ schemaNames)) = [] := by
    rw [List.filter_eq_nil_iff]
    intro k hk
    simp [(hkeys k).mp hk]
  have hnew : schemaNames.filter
      (fun n => ! hasKey (syncWithSchema store schemaNames) n) = [] := by
    rw [List.filter_eq_nil_iff]
    intro n hn
    have hhk : hasKey (syncWithSchema store schemaNames) n = true :=
      (hasKey_iff_mem_storeKeys _ n).mpr ((hkeys n).mpr hn)
    simp [hhk]
  conv_lhs => rw [syncWithSchema_def]
  rw [hclear, hnew]
  rfl

/-- C3.  Sync value preservation: a key present both in the pre-sync store
and among the schema's field names maps to the same value after
`_sync_with_schema` as before; sync never alters the value of a retained
key. -/
theorem sync_value_preservation (store : Store) (schemaNames : List String)
    (k : String) (hk : k ∈ storeKeys store) (hn : k ∈ schemaNames) :
    lookupStore (syncWithSchema store schemaNames) k = lookupStore store k := by
  rw [syncWithSchema_def]
  rw [lookupStore_foldl_insert_of_not_mem]
  · rw [foldl_dictDelete_eq_filter]
    apply lookupStore_filter_key
    intro p hp
    have hnm : p.1 ∉ (storeKeys store).filter (fun m => decide (m ∉ schemaNames)) := by
      simp [List.mem_filter, hp, hn]
    exact decide_eq_true hnm
  · intro hmem
    have hfalse := (List.mem_filter.mp hmem).2
    rw [(hasKey_iff_mem_storeKeys store k).mpr hk] at hfalse
    simp at hfalse

/-- Witness for C3 at a concrete input: store `{a: 1, c: 3}`, schema fields
`[a, b]`; the retained key `a` keeps its value across sync. -/
theorem sync_value_preservation_witness :
    "a" ∈ storeKeys [("a", Value.int 1), ("c", Value.int 3)] ∧
    "a" ∈ ["a", "b"] ∧
    lookupStore (syncWithSchema [("a", Value.int 1), ("c", Value.int 3)]
        ["a", "b"]) "a"
      = lookupStore [("a", Value.int 1), ("c", Value.int 3)] "a" :=
  ⟨by decide, by decide,
    sync_value_preservation [("a", Value.int 1), ("c", Value.int 3)]
      ["a", "b"] "a" (by decide) (by decide)⟩

/-! ### Schema field rows (`DynamicSchemaField`, models.py:166-204) -/

/-- A `DynamicSchemaField` row.  `id` is the primary key (`none` before the
row is persisted), `schema` the foreign key to its `DynamicSchema` row. -/
structure DynamicSchemaField where
  id : Option Nat
  schema : Nat
  name : String
  verbose_name : Option String
  field_type : String
  required : Bool
deriving DecidableEq, Repr

/-- The regex validator attached to `DynamicSchemaField.name`
(models.py:179-180), pattern `^[\w]+$`: one or more alphanumeric characters
or underscores.  Django runs field validators only during full (form-level)
validation, never in `Model.save`. -/
def validName (s : String) : Bool :=
  decide (s ≠ "") && s.data.all (fun c => c.isAlphanum || c == '_')

/-- Loop body of `DynamicSchemaField.clean` (models.py:196-201): the
`_meta.fields` name list minus `verbose_name` is
`[id, schema, name, field_type, required]`; the persisted row and the row
being saved must agree on every one of them. -/
def DynamicSchemaField.frozenUnchanged (old self : DynamicSchemaField) : Bool :=
  decide (old.id = self.id) && decide (old.schema = self.schema) &&
  decide (old.name = self.name) && decide (old.field_type = self.field_type) &&
  decide (old.required = self.required)

/-- `DynamicSchemaField.clean` (models.py:189-201): a no-op for unsaved rows
(`not self.id`); otherwise fetches the persisted row by primary key and
raises `ValidationError` (modelled as the string `ImmutableFieldError`) when
any field other than `verbose_name` changed. -/
def DynamicSchemaField.clean (db : List DynamicSchemaField)
    (self : DynamicSchemaField) : Except String Unit :=
  match self.id with
  | none => Except.ok ()
  | some i =>
    match db.find? (fun f => decide (f.id = some i)) with
    | none => Except.error "DynamicSchemaField.DoesNotExist"
    | some old =>
      if DynamicSchemaField.frozenUnchanged old self then Except.ok ()
      else Except.error "ImmutableFieldError"

/-- Largest primary key in the table (0 when empty); used to model the
auto-increment key the database assigns on INSERT. -/
def maxId (db : List DynamicSchemaField) : Nat :=
  db.foldl (fun acc f => max acc (f.id.getD 0)) 0

/-- `DynamicSchemaField.save` (models.py:185-187): runs `clean`, then the
ordinary model save — INSERT with a fresh primary key for a new row, UPDATE
by primary key for an existing one.  The INSERT is subject to the
`unique_together = ('schema', 'name')` constraint (models.py:176): the
database raises `IntegrityError` when this schema already has a row with
that name.  The UPDATE path cannot introduce a violation, because `clean`
has already rejected any change to `schema` or `name`.  An error aborts
before anything is written, so the table is returned unchanged through
every `Except.error` branch. -/
def DynamicSchemaField.save (db : List DynamicSchemaField)
    (self : DynamicSchemaField) : Except String (List DynamicSchemaField) :=
  match DynamicSchemaField.clean db self with
  | Except.error e => Except.error e
  | Except.ok _ =>
    match self.id with
    | none =>
      if db.any (fun f =>
          decide (f.schema = self.schema) && decide (f.name = self.name))
      then Except.error "IntegrityError"
      else Except.ok (db ++ [{ self with id := some (maxId db + 1) }])
    | some i => Except.ok (db.map (fun f => if f.id = some i then self else f))

/-- `DynamicSchema.add_field` (models.py:147-148):
`self.fields.create(schema=self, name=name, field_type=type)` — constructs a
row with the model defaults (`verbose_name` null, `required` True) and saves
it.  `create` does not call `full_clean`, so no field validator runs. -/
def DynamicSchema.add_field (db : List DynamicSchemaField) (schemaId : Nat)
    (name ty : String) : Except String (List DynamicSchemaField) :=
  DynamicSchemaField.save db
    { id := none, schema := schemaId, name := name, verbose_name := none,
      field_type := ty, required := true }

/-- `DynamicSchema.remove_field` (models.py:150-151):
`self.fields.filter(name=name).delete()` — deletes every row of this schema
with the given name from the table; deleting an empty queryset is a no-op. -/
def DynamicSchema.remove_field (db : List DynamicSchemaField) (schemaId : Nat)
    (name : String) : List DynamicSchemaField :=
  db.filter (fun f => ! (decide (f.schema = schemaId) && decide (f.name = name)))

/-! ### Claims C4, C6, C10 -/

/-- C4.  Field immutability: for a persisted schema field (found in the
table under primary key `i`), saving a version whose `name`, `field_type` or
`required` flag differs fails with `ImmutableFieldError` (leaving the table
untouched, since the error branch returns before any write), while saving a
version that agrees on every frozen attribute — so that at most
`verbose_name` changed — succeeds and updates the row. -/
theorem field_immutability (db : List DynamicSchemaField)
    (old self : DynamicSchemaField) (i : Nat) (hid : self.id = some i)
    (hold : db.find? (fun f => decide (f.id = some i)) = some old) :
    ((self.name ≠ old.name ∨ self.field_type ≠ old.field_type ∨
        self.required ≠ old.required) →
      DynamicSchemaField.save db self = Except.error "ImmutableFieldError") ∧
    ((self.schema = old.schema ∧ self.name = old.name ∧
        self.field_type = old.field_type ∧ self.required = old.required) →
      DynamicSchemaField.save db self =
        Except.ok (db.map (fun f => if f.id = some i then self else f))) := by
  have hoid : old.id = some i := by simpa using List.find?_some hold
  constructor
  · intro hd
    have hfe : DynamicSchemaField.frozenUnchanged old self = false := by
      rcases hd with h | h | h <;>
        simp [DynamicSchemaField.frozenUnchanged, Ne.symm h]
    simp [DynamicSchemaField.save, DynamicSchemaField.clean, hid, hold, hfe]
  · rintro ⟨h1, h2, h3, h4⟩
    have hfe : DynamicSchemaField.frozenUnchanged old self = true := by
      simp [DynamicSchemaField.frozenUnchanged, hid, hoid, h1, h2, h3, h4]
    simp [DynamicSchemaField.save, DynamicSchemaField.clean, hid, hold, hfe]

/-- Witness for C4: the persisted field `price : IntegerField`; changing its
`field_type` to `CharField` is rejected with `ImmutableFieldError`, changing
only its `verbose_name` succeeds. -/
theorem field_immutability_witness :
    DynamicSchemaField.save [⟨some 1, 1, "price", none, "IntegerField", true⟩]
        ⟨some 1, 1, "price", none, "CharField", true⟩
      = Except.error "ImmutableFieldError" ∧
    DynamicSchemaField.save [⟨some 1, 1, "price", none, "IntegerField", true⟩]
        ⟨some 1, 1, "price", some "Price", "IntegerField", true⟩
      = Except.ok [⟨some 1, 1, "price", some "Price", "IntegerField", true⟩] := by
  constructor
  · exact (field_immutability [⟨some 1, 1, "price", none, "IntegerField", true⟩]
      ⟨some 1, 1, "price", none, "IntegerField", true⟩
      ⟨some 1, 1, "price", none, "CharField", true⟩ 1 rfl (by decide)).1
      (Or.inr (Or.inl (by decide)))
  · have h := (field_immutability [⟨some 1, 1, "price", none, "IntegerField", true⟩]
      ⟨some 1, 1, "price", none, "IntegerField", true⟩
      ⟨some 1, 1, "price", some "Price", "IntegerField", true⟩ 1 rfl (by decide)).2
      ⟨rfl, rfl, rfl, rfl⟩
    simpa using h

/-- Counterexample to C6 as stated: `add_field` with the name `"bad name"` —
which fails the identifier pattern — does NOT fail with `InvalidFieldName`;
it succeeds and adds the field to the schema, because neither
`RelatedManager.create` nor the overridden `save`/`clean` path ever runs the
field validators. -/
theorem add_field_invalid_name_cex :
    validName "bad name" = false ∧
    DynamicSchema.add_field [] 1 "bad name" "CharField"
      = Except.ok [⟨some 1, 1, "bad name", none, "CharField", true⟩] := by
  constructor
  · decide
  · rfl

/-- C6 amended: `add_field` performs no name validation — the identifier
pattern exists only as a declared validator on the `name` column, enforced
solely by form-level (`full_clean`) validation, which `add_field` never
invokes.  When the schema has no existing field with the given name,
`add_field` succeeds for any name (valid or not) and appends a new field
row with that name, the model defaults and a fresh primary key; when the
schema already has a field with that name it fails with the database's
`IntegrityError` from `unique_together('schema', 'name')` — never with
`InvalidFieldName` in either case. -/
theorem add_field_no_validation (db : List DynamicSchemaField) (schemaId : Nat)
    (name ty : String) :
    ((∀ f ∈ db, f.schema = schemaId → f.name ≠ name) →
      DynamicSchema.add_field db schemaId name ty
        = Except.ok (db ++
            [⟨some (maxId db + 1), schemaId, name, none, ty, true⟩])) ∧
    ((∃ f ∈ db, f.schema = schemaId ∧ f.name = name) →
      DynamicSchema.add_field db schemaId name ty
        = Except.error "IntegrityError") := by
  constructor
  · intro h
    have hany : db.any (fun f =>
        decide (f.schema = schemaId) && decide (f.name = name)) = false := by
      rw [List.any_eq_false]
      intro f hf
      simp only [Bool.and_eq_true, decide_eq_true_eq, not_and]
      intro hs hn
      exact h f hf hs hn
    simp [DynamicSchema.add_field, DynamicSchemaField.save,
      DynamicSchemaField.clean, hany]
  · rintro ⟨f, hf, hs, hn⟩
    have hany : db.any (fun f =>
        decide (f.schema = schemaId) && decide (f.name = name)) = true := by
      rw [List.any_eq_true]
      exact ⟨f, hf, by simp [hs, hn]⟩
    simp [DynamicSchema.add_field, DynamicSchemaField.save,
      DynamicSchemaField.clean, hany]

/-- Witness for C6 (amended): on a schema with no fields, the pattern-
violating name `"bad name"` is accepted and added; on a schema already
declaring `dup`, adding `dup` again fails with `IntegrityError`. -/
theorem add_field_no_validation_witness :
    DynamicSchema.add_field [] 1 "bad name" "CharField"
      = Except.ok [⟨some 1, 1, "bad name", none, "CharField", true⟩] ∧
    DynamicSchema.add_field [⟨some 1, 1, "dup", none, "CharField", true⟩] 1
        "dup" "IntegerField"
      = Except.error "IntegrityError" :=
  ⟨(add_field_no_validation [] 1 "bad name" "CharField").1 (by decide),
   (add_field_no_validation [⟨some 1, 1, "dup", none, "CharField", true⟩] 1
       "dup" "IntegerField").2
     ⟨⟨some 1, 1, "dup", none, "CharField", true⟩, by decide, rfl, rfl⟩⟩

/-- C10.  `remove_field` is total on names: with a name not declared on the
schema it raises no error and leaves the table unchanged, and in general it
removes exactly this schema's rows carrying that name, keeping everything
else. -/
theorem remove_field_total (db : List DynamicSchemaField) (schemaId : Nat)
    (name : String) :
    ((∀ f ∈ db, f.schema = schemaId → f.name ≠ name) →
      DynamicSchema.remove_field db schemaId name = db) ∧
    (∀ f, f ∈ DynamicSchema.remove_field db schemaId name ↔
      f ∈ db ∧ ¬(f.schema = schemaId ∧ f.name = name)) := by
  constructor
  · intro h
    rw [DynamicSchema.remove_field, List.filter_eq_self]
    intro f hf
    by_cases hs : f.schema = schemaId
    · simp [hs, h f hf hs]
    · simp [hs]
  · intro f
    rw [DynamicSchema.remove_field, List.mem_filter]
    constructor
    · rintro ⟨hf, hb⟩
      refine ⟨hf, ?_⟩
      rintro ⟨hs, hn⟩
      simp [hs, hn] at hb
    · rintro ⟨hf, hb⟩
      refine ⟨hf, ?_⟩
      by_cases hs : f.schema = schemaId
      · by_cases hn : f.name = name
        · exact absurd ⟨hs, hn⟩ hb
        · simp [hs, hn]
      · simp [hs]

/-- Witness for C10: removing the undeclared name `"a"` from a schema whose
only field is `"b"` leaves the table unchanged. -/
theorem remove_field_total_witness :
    DynamicSchema.remove_field [⟨some 1, 1, "b", none, "CharField", true⟩] 1 "a"
      = [⟨some 1, 1, "b", none, "CharField", true⟩] :=
  (remove_field_total [⟨some 1, 1, "b", none, "CharField", true⟩] 1 "a").1
    (by decide)

/-! ### Schema name projection and attribute interception -/

/-- `DynamicModel.get_extra_fields_names` (models.py:48-49): the declared
field names of the resolved schema, in declaration order.  This is the list
`_sync_with_schema` and `__setattr__` consult. -/
def get_extra_fields_names (fields : List DynamicSchemaField) : List String :=
  fields.map DynamicSchemaField.name

/-- `DynamicModel.__setattr__` (models.py:72-80), in the post-construction
state where `extra_fields` exists: the value is written into the attribute
store iff the attribute name is not one of the model's own (`_meta`) field
names, is not the literal `_schema`, and is a declared schema field name.
In every case the assignment also falls through to the ordinary
`object.__setattr__`, so no error is ever raised; only the store effect is
modelled here. -/
def setattrDynamic (metaFieldNames : List String) (schemaNames : List String)
    (store : Store) (attrName : String) (v : Value) : Store :=
  if attrName ∉ metaFieldNames ∧ attrName ≠ "_schema" ∧ attrName ∈ schemaNames
  then dictInsert store attrName v
  else store

/-! ### The form projector (`DynamicForm`, models.py:83-125) -/

/-- One entry of `DynamicForm.fields` as built in `__init__`: the forms
class chosen from `field_mapping`, its optional widget, and the
`required`/`initial`/`label` keyword values. -/
structure FormFieldEntry where
  name : String
  fieldClass : String
  widget : Option String
  required : Bool
  initial : Value
  label : String
deriving DecidableEq, Repr

/-- `DynamicForm.field_mapping` (models.py:84-90): field-type tag to
(forms class, optional widget). -/
def field_mapping : List (String × String × Option String) :=
  [("IntegerField", "IntegerField", none),
   ("CharField", "CharField", none),
   ("TextField", "CharField", some "Textarea"),
   ("EmailField", "EmailField", none),
   ("BooleanField", "BooleanField", none)]

/-- Python `str.capitalize()`: first character uppercased, every following
character lowercased. -/
def pyCapitalize (s : String) : String :=
  match s.data with
  | [] => ""
  | c :: cs => String.mk (c.toUpper :: cs.map Char.toLower)

/-- Python `" ".join(name.split("_"))`: since `split` keeps empty chunks and
`join` re-inserts one separator per boundary, this is exactly the string
with every underscore replaced by a space. -/
def pyUnderscoreToSpace (s : String) : String :=
  String.mk (s.data.map (fun c => if c = '_' then ' ' else c))

/-- One iteration of the `DynamicForm.__init__` loop (models.py:99-107) for
a schema field: looks the field type up in `field_mapping` (a Python
`KeyError` — here `none` — for an unmapped type), overrides `required` to
`False` for `BooleanField`, takes the current stored value as `initial`,
and derives `label` from `verbose_name` when that is truthy (non-null and
non-empty), else from the name with underscores split and space-joined;
either way through `str.capitalize()` (`ugettext` is the identity here). -/
def buildFormField (store : Store) (f : DynamicSchemaField) :
    Option FormFieldEntry :=
  match field_mapping.find? (fun p => decide (p.1 = f.field_type)) with
  | none => none
  | some mp =>
    some { name := f.name
           fieldClass := mp.2.1
           widget := mp.2.2
           required := if f.field_type = "BooleanField" then false else f.required
           initial := getExtraFieldValue store f.name
           label :=
             match f.verbose_name with
             | some v =>
               if v ≠ "" then pyCapitalize v
               else pyCapitalize (pyUnderscoreToSpace f.name)
             | none => pyCapitalize (pyUnderscoreToSpace f.name) }

/-- The whole `DynamicForm.__init__` loop: one entry per schema field, in
declaration order (`none` if any field type is unmapped). -/
def buildFormFields (fields : List DynamicSchemaField) (store : Store) :
    Option (List FormFieldEntry) :=
  fields.mapM (buildFormField store)

/-- `DynamicForm.save` (models.py:109-125), restricted to its effect on the
attribute store: a fresh dict is built from the cleaned-data keys that are
declared schema field names, and is then assigned wholesale to
`m.extra_fields` (line 121), discarding the previously stored mapping
`_oldStore` entirely. -/
def dynamicFormSave (extraFieldsNames : List String) (_oldStore : Store)
    (cleanedData : List (String × Value)) : Store :=
  cleanedData.foldl
    (fun acc kv =>
      if kv.1 ∈ extraFieldsNames then dictInsert acc kv.1 kv.2 else acc)
    []

/-! ### Form save lemmas -/

theorem hasKey_append_single (s : Store) (kv : String × Value) (k : String) :
    hasKey (s ++ [kv]) k = (hasKey s k || decide (kv.1 = k)) := by
  simp [hasKey]

theorem formSave_foldl_eq_filter (names : List String)
    (cleaned : List (String × Value)) (acc : Store)
    (hnd : (cleaned.map Prod.fst).Nodup)
    (hdisj : ∀ kv ∈ cleaned, hasKey acc kv.1 = false) :
    cleaned.foldl
        (fun acc kv => if kv.1 ∈ names then dictInsert acc kv.1 kv.2 else acc)
        acc
      = acc ++ cleaned.filter (fun kv => decide (kv.1 ∈ names)) := by
  induction cleaned generalizing acc with
  | nil => simp
  | cons kv cleaned ih =>
      rw [List.map_cons, List.nodup_cons] at hnd
      obtain ⟨hk, hnd'⟩ := hnd
      have hacc := hdisj kv (List.mem_cons_self kv cleaned)
      rw [List.foldl_cons, List.filter_cons]
      by_cases hm : kv.1 ∈ names
      · rw [if_pos hm, if_pos (decide_eq_true hm)]
        have hins : dictInsert acc kv.1 kv.2 = acc ++ [kv] := by
          rw [dictInsert, if_neg (by simp [hacc])]
        rw [hins, ih (acc ++ [kv]) hnd' ?hnext, List.append_assoc,
          List.singleton_append]
        case hnext =>
          intro kv' hkv'
          rw [hasKey_append_single]
          have h1 := hdisj kv' (List.mem_cons_of_mem kv hkv')
          have h2 : ¬ kv.1 = kv'.1 := fun he => hk (by
            rw [he]
            exact List.mem_map_of_mem Prod.fst hkv')
          simp [h1, h2]
      · rw [if_neg hm, if_neg (by simpa using hm)]
        exact ih acc hnd' (fun kv' h => hdisj kv' (List.mem_cons_of_mem kv h))

theorem lookupStore_filter_not_mem (cleaned : List (String × Value))
    (names : List String) (k : String) (hk : k ∉ names) :
    lookupStore (cleaned.filter (fun kv => decide (kv.1 ∈ names))) k = none := by
  apply lookupStore_eq_none_of_not_hasKey
  simp only [hasKey, List.any_eq_false]
  intro p hp
  have hmem := (List.mem_filter.mp hp).2
  simp only [decide_eq_true_eq] at hmem ⊢
  intro he
  exact hk (he ▸ hmem)

/-! ### Claims C5, C7, C8, C9 -/

/-- Counterexample to C5 as stated: entity with declared field `a` whose
store holds `{a: 1}`; applying the form save-back with an empty cleaned
input does not keep the stored value — `m.extra_fields` is replaced by the
freshly built dict, so `a` is dropped from the store entirely. -/
theorem apply_frame_cex :
    "a" ∈ ["a"] ∧
    lookupStore [("a", Value.int 1)] "a" = some (Value.int 1) ∧
    dynamicFormSave ["a"] [("a", Value.int 1)] [] = [] ∧
    lookupStore (dynamicFormSave ["a"] [("a", Value.int 1)] []) "a" = none :=
  ⟨by decide, rfl, rfl, rfl⟩

/-- C5 amended: `DynamicForm.save` replaces the attribute store wholesale.
For cleaned input with (dict-like) distinct keys, the post-save store maps a
key to the cleaned value exactly when the key is a declared field name
present in the cleaned input; every other key — in particular every
declared field absent from the cleaned input, whatever value the old store
held for it — is absent from the post-save store. -/
theorem apply_replaces_store (extraFieldsNames : List String) (oldStore : Store)
    (cleanedData : List (String × Value))
    (hnd : (cleanedData.map Prod.fst).Nodup) (k : String) :
    lookupStore (dynamicFormSave extraFieldsNames oldStore cleanedData) k =
      if k ∈ extraFieldsNames then lookupStore cleanedData k else none := by
  unfold dynamicFormSave
  rw [formSave_foldl_eq_filter extraFieldsNames cleanedData [] hnd
    (fun kv _ => rfl), List.nil_append]
  by_cases hm : k ∈ extraFieldsNames
  · rw [if_pos hm]
    apply lookupStore_filter_key
    intro p hp
    rw [hp]
    exact decide_eq_true hm
  · rw [if_neg hm]
    exact lookupStore_filter_not_mem cleanedData extraFieldsNames k hm

/-- Witness for C5 (amended): declared fields `a, b`, old store
`{a: 1, b: 2}`, cleaned input `{a: 5}`; after save the store holds the
cleaned value for `a`. -/
theorem apply_replaces_store_witness :
    lookupStore (dynamicFormSave ["a", "b"]
        [("a", Value.int 1), ("b", Value.int 2)] [("a", Value.int 5)]) "a"
      = if "a" ∈ ["a", "b"] then lookupStore [("a", Value.int 5)] "a" else none :=
  apply_replaces_store ["a", "b"] [("a", Value.int 1), ("b", Value.int 2)]
    [("a", Value.int 5)] (by decide) "a"

/-- C7.  Boolean requiredness override: whenever the `__init__` loop builds
an entry for a schema field, a `BooleanField`-typed field gets
`required = False` regardless of its declared flag, and any other field
type gets its declared `required` flag passed through unchanged. -/
theorem boolean_required_override (store : Store) (f : DynamicSchemaField)
    (e : FormFieldEntry) (he : buildFormField store f = some e) :
    (f.field_type = "BooleanField" → e.required = false) ∧
    (f.field_type ≠ "BooleanField" → e.required = f.required) := by
  rw [buildFormField] at he
  cases hm : field_mapping.find? (fun p => decide (p.1 = f.field_type)) with
  | none =>
      rw [hm] at he
      exact absurd he (by simp)
  | some mp =>
      rw [hm] at he
      injection he with he
      subst he
      constructor
      · intro hb
        simp [hb]
      · intro hb
        simp [hb]

/-- Witness for C7: a `BooleanField` declared `required = True` is projected
with `required = false`. -/
theorem boolean_required_override_witness :
    (⟨"subscribed", "BooleanField", none, false, Value.null, "Subscribed"⟩ :
        FormFieldEntry).required = false :=
  (boolean_required_override []
    ⟨some 1, 1, "subscribed", none, "BooleanField", true⟩
    ⟨"subscribed", "BooleanField", none, false, Value.null, "Subscribed"⟩
    (by decide)).1 rfl

/-- Counterexample to C8 as stated: a schema that declares the field name
`_schema` (the name pattern `^[\w]+$` allows it).  Setting that declared
name leaves the attribute store unchanged — `__setattr__` explicitly skips
`_schema` — so "setting a declared field name writes the value into the
store" fails. -/
theorem setattr_declared_cex :
    "_schema" ∈ ["_schema"] ∧
    setattrDynamic ["id", "extra_fields"] ["_schema"] [("_schema", Value.null)]
        "_schema" (Value.int 5) = [("_schema", Value.null)] ∧
    lookupStore (setattrDynamic ["id", "extra_fields"] ["_schema"]
        [("_schema", Value.null)] "_schema" (Value.int 5)) "_schema"
      ≠ some (Value.int 5) := by
  refine ⟨by decide, rfl, by decide⟩

/-- C8 amended: setting an attribute never raises; the store is written iff
the name is a declared schema field name that is neither one of the model's
own field names nor the literal `_schema`.  In particular every undeclared
name is a silent no-op on the store (the value passes through as ordinary
entity state), and a declared, non-shadowing name gets its value written. -/
theorem setattr_amended (metaFieldNames schemaNames : List String)
    (store : Store) (a : String) (v : Value) :
    (a ∉ schemaNames →
      setattrDynamic metaFieldNames schemaNames store a v = store) ∧
    (a ∈ metaFieldNames ∨ a = "_schema" →
      setattrDynamic metaFieldNames schemaNames store a v = store) ∧
    (a ∈ schemaNames → a ∉ metaFieldNames → a ≠ "_schema" →
      setattrDynamic metaFieldNames schemaNames store a v =
          dictInsert store a v ∧
        lookupStore (dictInsert store a v) a = some v) := by
  refine ⟨?_, ?_, ?_⟩
  · intro h
    rw [setattrDynamic, if_neg]
    rintro ⟨-, -, h3⟩
    exact h h3
  · intro h
    rw [setattrDynamic, if_neg]
    rintro ⟨h1, h2, -⟩
    rcases h with h | h
    · exact h1 h
    · exact h2 h
  · intro h1 h2 h3
    rw [setattrDynamic, if_pos ⟨h2, h3, h1⟩]
    refine ⟨rfl, ?_⟩
    rw [lookupStore_dictInsert]
    simp

/-- Witness for C8 (amended): the declared, non-shadowing field `color` gets
its value written into the store. -/
theorem setattr_amended_witness :
    setattrDynamic ["id", "extra_fields"] ["color"] [("color", Value.null)]
        "color" (Value.str "red")
      = dictInsert [("color", Value.null)] "color" (Value.str "red") ∧
    lookupStore (dictInsert [("color", Value.null)] "color" (Value.str "red"))
        "color" = some (Value.str "red") :=
  (setattr_amended ["id", "extra_fields"] ["color"] [("color", Value.null)]
    "color" (Value.str "red")).2.2 (by decide) (by decide) (by decide)

/-- Counterexample to C9 as stated: a field with declared verbose name
`"custom label"` gets label `"Custom label"` — the source passes the
verbose name through `str.capitalize()`, so the label does not equal the
declared verbose name. -/
theorem label_derivation_cex :
    (buildFormField [] ⟨some 1, 1, "x", some "custom label", "CharField",
        true⟩).map FormFieldEntry.label = some "Custom label" ∧
    "Custom label" ≠ "custom label" := by
  refine ⟨by decide, by decide⟩

/-- C9 amended: the label is `str.capitalize()` of the declared verbose name
when that is truthy (present and non-empty) — first character uppercased,
the rest lowercased — and otherwise `str.capitalize()` of the field name
with underscores split and space-joined. -/
theorem label_derivation_amended (store : Store) (f : DynamicSchemaField)
    (e : FormFieldEntry) (he : buildFormField store f = some e) :
    e.label =
      match f.verbose_name with
      | some v =>
        if v ≠ "" then pyCapitalize v
        else pyCapitalize (pyUnderscoreToSpace f.name)
      | none => pyCapitalize (pyUnderscoreToSpace f.name) := by
  rw [buildFormField] at he
  cases hm : field_mapping.find? (fun p => decide (p.1 = f.field_type)) with
  | none =>
      rw [hm] at he
      exact absurd he (by simp)
  | some mp =>
      rw [hm] at he
      injection he with he
      subst he
      rfl

/-- Witness for C9 (amended): the field `my_field` with no verbose name is
labelled `"My field"`. -/
theorem label_derivation_amended_witness :
    (⟨"my_field", "CharField", none, true, Value.null, "My field"⟩ :
        FormFieldEntry).label
      = pyCapitalize (pyUnderscoreToSpace "my_field") :=
  label_derivation_amended [] ⟨some 1, 1, "my_field", none, "CharField", true⟩
    ⟨"my_field", "CharField", none, true, Value.null, "My field"⟩ (by decide)

end DynMod
